import Mathlib

/-!
Verification of the gmail-mcp core against its specification.

Shallow embedding of `src/gmail-client.ts` (message composition and MIME
extraction) and of the `add_account` tool handler, with theorems settling
the specification claims.

Strings are modelled as Lean `String`/`List Char`; bytes as `Nat` values
below 256.  Node's `Buffer` conversions (`base64`, `base64url`, `utf-8`)
are modelled by explicit executable encoders/decoders below.
-/

namespace GmailMcp

/-! ## UTF-8 encoding and decoding -/

/-- UTF-8 encoding of one code point, as bytes (models what
`Buffer.from(s, 'utf-8')` does per character). -/
def utf8EncodeCharNat (n : Nat) : List Nat :=
  if n < 0x80 then [n]
  else if n < 0x800 then [0xC0 + n / 64, 0x80 + n % 64]
  else if n < 0x10000 then [0xE0 + n / 4096, 0x80 + (n / 64) % 64, 0x80 + n % 64]
  else [0xF0 + n / 262144, 0x80 + (n / 4096) % 64, 0x80 + (n / 64) % 64, 0x80 + n % 64]

/-- UTF-8 encoding of a character sequence. -/
def utf8Encode : List Char → List Nat
  | [] => []
  | c :: cs => utf8EncodeCharNat c.toNat ++ utf8Encode cs

/-- The UTF-8 bytes of a string (models `Buffer.from(s)` / `Buffer.from(s, 'utf-8')`). -/
def utf8Bytes (s : String) : List Nat := utf8Encode s.data

mutual
/-- Strict UTF-8 decoding: rejects malformed sequences, overlong forms,
surrogates and out-of-range code points (models the validation performed
by `decodeURIComponent`).  The continuation-byte handling lives in the
mutually defined `utf8Cont1`/`utf8Cont2`/`utf8Cont3`. -/
def utf8DecodeStrict : List Nat → Option (List Char)
  | [] => some []
  | b :: rest =>
    if b < 0x80 then (utf8DecodeStrict rest).map (Char.ofNat b :: ·)
    else if 0xC2 ≤ b ∧ b ≤ 0xDF then utf8Cont1 b rest
    else if 0xE0 ≤ b ∧ b ≤ 0xEF then utf8Cont2 b rest
    else if 0xF0 ≤ b ∧ b ≤ 0xF4 then utf8Cont3 b rest
    else none

/-- One continuation byte of a two-byte sequence. -/
def utf8Cont1 : Nat → List Nat → Option (List Char)
  | _, [] => none
  | b, b2 :: r =>
    if 0x80 ≤ b2 ∧ b2 ≤ 0xBF then
      (utf8DecodeStrict r).map (Char.ofNat ((b - 0xC0) * 64 + (b2 - 0x80)) :: ·)
    else none

/-- Two continuation bytes of a three-byte sequence (also rejecting
overlong forms and surrogates). -/
def utf8Cont2 : Nat → List Nat → Option (List Char)
  | _, [] => none
  | _, [_] => none
  | b, b2 :: b3 :: r =>
    if (0x80 ≤ b2 ∧ b2 ≤ 0xBF) ∧ (0x80 ≤ b3 ∧ b3 ≤ 0xBF) ∧
        0x800 ≤ (b - 0xE0) * 4096 + (b2 - 0x80) * 64 + (b3 - 0x80) ∧
        ¬(0xD800 ≤ (b - 0xE0) * 4096 + (b2 - 0x80) * 64 + (b3 - 0x80) ∧
          (b - 0xE0) * 4096 + (b2 - 0x80) * 64 + (b3 - 0x80) < 0xE000) then
      (utf8DecodeStrict r).map
        (Char.ofNat ((b - 0xE0) * 4096 + (b2 - 0x80) * 64 + (b3 - 0x80)) :: ·)
    else none

/-- Three continuation bytes of a four-byte sequence (also rejecting
overlong forms and out-of-range code points). -/
def utf8Cont3 : Nat → List Nat → Option (List Char)
  | _, [] => none
  | _, [_] => none
  | _, [_, _] => none
  | b, b2 :: b3 :: b4 :: r =>
    if (0x80 ≤ b2 ∧ b2 ≤ 0xBF) ∧ (0x80 ≤ b3 ∧ b3 ≤ 0xBF) ∧ (0x80 ≤ b4 ∧ b4 ≤ 0xBF) ∧
        0x10000 ≤ (b - 0xF0) * 262144 + (b2 - 0x80) * 4096 + (b3 - 0x80) * 64 + (b4 - 0x80) ∧
        (b - 0xF0) * 262144 + (b2 - 0x80) * 4096 + (b3 - 0x80) * 64 + (b4 - 0x80) < 0x110000 then
      (utf8DecodeStrict r).map
        (Char.ofNat ((b - 0xF0) * 262144 + (b2 - 0x80) * 4096 + (b3 - 0x80) * 64 + (b4 - 0x80)) :: ·)
    else none
end

/-- Lenient UTF-8 decoding: malformed input produces the replacement
character U+FFFD and decoding continues (models `buffer.toString('utf-8')`,
which never throws; the exact replacement granularity is irrelevant to the
claims, only totality and correctness on valid input are used). -/
def utf8DecodeLenient : List Nat → List Char
  | [] => []
  | b :: rest =>
    if b < 0x80 then Char.ofNat b :: utf8DecodeLenient rest
    else if 0xC2 ≤ b ∧ b ≤ 0xDF then
      match rest with
      | b2 :: r =>
        if 0x80 ≤ b2 ∧ b2 ≤ 0xBF then
          Char.ofNat ((b - 0xC0) * 64 + (b2 - 0x80)) :: utf8DecodeLenient r
        else Char.ofNat 0xFFFD :: utf8DecodeLenient (b2 :: r)
      | [] => [Char.ofNat 0xFFFD]
    else if 0xE0 ≤ b ∧ b ≤ 0xEF then
      match rest with
      | b2 :: b3 :: r =>
        if (0x80 ≤ b2 ∧ b2 ≤ 0xBF) ∧ (0x80 ≤ b3 ∧ b3 ≤ 0xBF) ∧
            0x800 ≤ (b - 0xE0) * 4096 + (b2 - 0x80) * 64 + (b3 - 0x80) ∧
            ¬(0xD800 ≤ (b - 0xE0) * 4096 + (b2 - 0x80) * 64 + (b3 - 0x80) ∧
              (b - 0xE0) * 4096 + (b2 - 0x80) * 64 + (b3 - 0x80) < 0xE000) then
          Char.ofNat ((b - 0xE0) * 4096 + (b2 - 0x80) * 64 + (b3 - 0x80)) :: utf8DecodeLenient r
        else Char.ofNat 0xFFFD :: utf8DecodeLenient (b2 :: b3 :: r)
      | [_] => [Char.ofNat 0xFFFD, Char.ofNat 0xFFFD]
      | [] => [Char.ofNat 0xFFFD]
    else if 0xF0 ≤ b ∧ b ≤ 0xF4 then
      match rest with
      | b2 :: b3 :: b4 :: r =>
        if (0x80 ≤ b2 ∧ b2 ≤ 0xBF) ∧ (0x80 ≤ b3 ∧ b3 ≤ 0xBF) ∧ (0x80 ≤ b4 ∧ b4 ≤ 0xBF) ∧
            0x10000 ≤ (b - 0xF0) * 262144 + (b2 - 0x80) * 4096 + (b3 - 0x80) * 64 + (b4 - 0x80) ∧
            (b - 0xF0) * 262144 + (b2 - 0x80) * 4096 + (b3 - 0x80) * 64 + (b4 - 0x80) < 0x110000 then
          Char.ofNat ((b - 0xF0) * 262144 + (b2 - 0x80) * 4096 + (b3 - 0x80) * 64 + (b4 - 0x80)) ::
            utf8DecodeLenient r
        else Char.ofNat 0xFFFD :: utf8DecodeLenient (b2 :: b3 :: b4 :: r)
      | [_, _] => [Char.ofNat 0xFFFD, Char.ofNat 0xFFFD, Char.ofNat 0xFFFD]
      | [_] => [Char.ofNat 0xFFFD, Char.ofNat 0xFFFD]
      | [] => [Char.ofNat 0xFFFD]
    else Char.ofNat 0xFFFD :: utf8DecodeLenient rest

/-! ## Base64 (standard and URL-safe alphabets) -/

/-- Character of the standard base64 alphabet for a 6-bit value. -/
def b64Char (n : Nat) : Char :=
  if n < 26 then Char.ofNat (65 + n)
  else if n < 52 then Char.ofNat (97 + (n - 26))
  else if n < 62 then Char.ofNat (48 + (n - 52))
  else if n = 62 then '+' else '/'

/-- Character of the URL-safe base64 alphabet for a 6-bit value. -/
def b64urlChar (n : Nat) : Char :=
  if n < 62 then b64Char n else if n = 62 then '-' else '_'

/-- Standard base64 encoding with padding (models `buffer.toString('base64')`). -/
def b64Encode : List Nat → List Char
  | [] => []
  | [b1] => [b64Char (b1 / 4), b64Char (b1 % 4 * 16), '=', '=']
  | [b1, b2] => [b64Char (b1 / 4), b64Char (b1 % 4 * 16 + b2 / 16), b64Char (b2 % 16 * 4), '=']
  | b1 :: b2 :: b3 :: rest =>
    b64Char (b1 / 4) :: b64Char (b1 % 4 * 16 + b2 / 16) ::
      b64Char (b2 % 16 * 4 + b3 / 64) :: b64Char (b3 % 64) :: b64Encode rest

/-- URL-safe base64 encoding, unpadded (models `buffer.toString('base64url')`). -/
def b64urlEncode : List Nat → List Char
  | [] => []
  | [b1] => [b64urlChar (b1 / 4), b64urlChar (b1 % 4 * 16)]
  | [b1, b2] => [b64urlChar (b1 / 4), b64urlChar (b1 % 4 * 16 + b2 / 16), b64urlChar (b2 % 16 * 4)]
  | b1 :: b2 :: b3 :: rest =>
    b64urlChar (b1 / 4) :: b64urlChar (b1 % 4 * 16 + b2 / 16) ::
      b64urlChar (b2 % 16 * 4 + b3 / 64) :: b64urlChar (b3 % 64) :: b64urlEncode rest

/-- 6-bit value of a standard base64 alphabet character. -/
def b64Val (c : Char) : Nat :=
  let v := c.toNat
  if 65 ≤ v ∧ v ≤ 90 then v - 65
  else if 97 ≤ v ∧ v ≤ 122 then v - 71
  else if 48 ≤ v ∧ v ≤ 57 then v + 4
  else if v = 43 then 62
  else if v = 47 then 63 else 0

/-- Membership in the standard base64 alphabet. -/
def isB64Char (c : Char) : Bool :=
  let v := c.toNat
  decide ((65 ≤ v ∧ v ≤ 90) ∨ (97 ≤ v ∧ v ≤ 122) ∨ (48 ≤ v ∧ v ≤ 57) ∨ v = 43 ∨ v = 47)

/-- Regroup filtered base64 characters into bytes (4 characters to 3 bytes;
a trailing group of 2 or 3 characters yields 1 or 2 bytes). -/
def b64DecodeGroups : List Char → List Nat
  | c1 :: c2 :: c3 :: c4 :: rest =>
    (b64Val c1 * 4 + b64Val c2 / 16) ::
      (b64Val c2 % 16 * 16 + b64Val c3 / 4) ::
        (b64Val c3 % 4 * 64 + b64Val c4) :: b64DecodeGroups rest
  | [c1, c2, c3] => [b64Val c1 * 4 + b64Val c2 / 16, b64Val c2 % 16 * 16 + b64Val c3 / 4]
  | [c1, c2] => [b64Val c1 * 4 + b64Val c2 / 16]
  | _ => []

/-- Forgiving base64 decoding: characters outside the alphabet (including
padding) are ignored, as Node's `Buffer.from(data, 'base64')` does. -/
def b64Decode (cs : List Char) : List Nat := b64DecodeGroups (cs.filter isB64Char)

/-- Decoding of a MIME body-data field:
`Buffer.from(data, 'base64').toString('utf-8')`. -/
def decodeBodyData (d : String) : String := String.mk (utf8DecodeLenient (b64Decode d.data))

/-! ## Message composition (`encodeSubject`, `sendEmail`) -/

/-- One character of the printable ASCII range `[\x20-\x7E]`. -/
def isPrintableAscii (c : Char) : Bool := decide (0x20 ≤ c.toNat ∧ c.toNat ≤ 0x7E)

/-- `encodeSubject` from gmail-client.ts: printable-ASCII subjects pass
through; anything else becomes one RFC 2047 encoded word. -/
def encodeSubject (subject : String) : String :=
  if subject.data.all isPrintableAscii then subject
  else "=?UTF-8?B?" ++ String.mk (b64Encode (utf8Bytes subject)) ++ "?="

/-- `list.join(', ')`. -/
def joinAddrs (l : List String) : String := String.intercalate ", " l

/-- Truthiness of `xs?.length` for an optional array. -/
def optListTruthy : Option (List String) → Bool
  | some l => !l.isEmpty
  | none => false

/-- The message text assembled by `sendEmail` before transport encoding:
header lines pushed in source order, joined by CRLF. -/
def buildEmail (toAddrs : List String) (subject body : String)
    (cc bcc : Option (List String)) : String :=
  let messageParts := ["To: " ++ joinAddrs toAddrs, "Subject: " ++ encodeSubject subject]
  let messageParts :=
    if optListTruthy cc then messageParts ++ ["Cc: " ++ joinAddrs (cc.getD [])]
    else messageParts
  let messageParts :=
    if optListTruthy bcc then messageParts ++ ["Bcc: " ++ joinAddrs (bcc.getD [])]
    else messageParts
  let messageParts := messageParts ++ ["Content-Type: text/plain; charset=utf-8", "", body]
  String.intercalate "\r\n" messageParts

/-- The raw blob handed to the transport:
`Buffer.from(email).toString('base64url')`. -/
def sendEmailRaw (toAddrs : List String) (subject body : String)
    (cc bcc : Option (List String)) : String :=
  String.mk (b64urlEncode (utf8Bytes (buildEmail toAddrs subject body cc bcc)))

/-! ## HTML-to-text conversion (the fallback branch of `extractPlainTextBody`) -/

/-- Exact character-list match at the head. -/
def startsWithChars : List Char → List Char → Bool
  | [], _ => true
  | _ :: _, [] => false
  | p :: ps, c :: cs => p == c && startsWithChars ps cs

/-- ASCII lower-casing of a character (for the regex `i` flag). -/
def asciiLower (c : Char) : Char :=
  if decide (65 ≤ c.toNat ∧ c.toNat ≤ 90) then Char.ofNat (c.toNat + 32) else c

/-- Case-insensitive match at the head; the pattern is given in lowercase. -/
def ciStartsWith : List Char → List Char → Bool
  | [], _ => true
  | _ :: _, [] => false
  | p :: ps, c :: cs => p == asciiLower c && ciStartsWith ps cs

/-- Remainder of `l` strictly after the first case-insensitive occurrence of
`close`, if any (the search that `[\s\S]*?` followed by a literal closing
tag performs). -/
def findCloseFrom (close : List Char) : Nat → List Char → Option (List Char)
  | 0, _ => none
  | _ + 1, [] => none
  | fuel + 1, c :: rest =>
    if ciStartsWith close (c :: rest) then some ((c :: rest).drop close.length)
    else findCloseFrom close fuel rest

/-- One global pass of `html.replace(/<tag[^>]*>[\s\S]*?<\/tag>/gi, '')`:
`openTag` is `<tag` and `close` is `</tag>`, both lowercase. -/
def stripBlocksGo (openTag close : List Char) : Nat → List Char → List Char
  | 0, l => l
  | _ + 1, [] => []
  | fuel + 1, c :: rest =>
    if ciStartsWith openTag (c :: rest) then
      let afterOpen := (c :: rest).drop openTag.length
      let inTag := afterOpen.takeWhile (· ≠ '>')
      match afterOpen.drop inTag.length with
      | '>' :: afterGt =>
        match findCloseFrom close (afterGt.length + 1) afterGt with
        | some rem => stripBlocksGo openTag close fuel rem
        | none => c :: stripBlocksGo openTag close fuel rest
      | _ => c :: stripBlocksGo openTag close fuel rest
    else c :: stripBlocksGo openTag close fuel rest

/-- One global pass of `.replace(/<[^>]+>/g, ' ')`. -/
def stripTagsGo : Nat → List Char → List Char
  | 0, l => l
  | _ + 1, [] => []
  | fuel + 1, c :: rest =>
    if c == '<' then
      let inner := rest.takeWhile (· ≠ '>')
      if inner.length > 0 then
        match rest.drop inner.length with
        | '>' :: after => ' ' :: stripTagsGo fuel after
        | _ => c :: stripTagsGo fuel rest
      else c :: stripTagsGo fuel rest
    else c :: stripTagsGo fuel rest

/-- One global pass of `.replace(/pat/g, repl)` for a literal pattern. -/
def replaceAllGo (pat repl : List Char) : Nat → List Char → List Char
  | 0, l => l
  | _ + 1, [] => []
  | fuel + 1, c :: rest =>
    if startsWithChars pat (c :: rest) && decide (0 < pat.length) then
      repl ++ replaceAllGo pat repl fuel ((c :: rest).drop pat.length)
    else c :: replaceAllGo pat repl fuel rest

/-- JavaScript's `\s` character class (also the set trimmed by `trim()`). -/
def isJsSpace (c : Char) : Bool :=
  let v := c.toNat
  decide (v = 0x20 ∨ v = 0x09 ∨ v = 0x0A ∨ v = 0x0D ∨ v = 0x0B ∨ v = 0x0C ∨ v = 0xA0 ∨
    v = 0x1680 ∨ (0x2000 ≤ v ∧ v ≤ 0x200A) ∨ v = 0x2028 ∨ v = 0x2029 ∨ v = 0x202F ∨
    v = 0x205F ∨ v = 0x3000 ∨ v = 0xFEFF)

/-- One global pass of `.replace(/\s+/g, ' ')` (the flag tracks whether the
previous character was inside a whitespace run). -/
def collapseWsGo : Bool → List Char → List Char
  | _, [] => []
  | inWs, c :: rest =>
    if isJsSpace c then
      if inWs then collapseWsGo true rest else ' ' :: collapseWsGo true rest
    else c :: collapseWsGo false rest

/-- JavaScript `String.prototype.trim`. -/
def trimJs (l : List Char) : List Char :=
  ((l.dropWhile isJsSpace).reverse.dropWhile isJsSpace).reverse

/-- The HTML-to-text conversion applied to a `text/html` part when no
`text/plain` part was found (the replace chain in `extractPlainTextBody`). -/
def htmlToText (html : String) : String :=
  let l := html.data
  let l := stripBlocksGo "<script".data "</script>".data (l.length + 1) l
  let l := stripBlocksGo "<style".data "</style>".data (l.length + 1) l
  let l := stripTagsGo (l.length + 1) l
  let l := replaceAllGo "&nbsp;".data " ".data (l.length + 1) l
  let l := replaceAllGo "&amp;".data "&".data (l.length + 1) l
  let l := replaceAllGo "&lt;".data "<".data (l.length + 1) l
  let l := replaceAllGo "&gt;".data ">".data (l.length + 1) l
  let l := replaceAllGo "&quot;".data "\"".data (l.length + 1) l
  let l := replaceAllGo "&#39;".data "'".data (l.length + 1) l
  let l := collapseWsGo false l
  String.mk (trimJs l)

/-! ## The MIME tree

`parts` is a mutually inductive forest so that all traversals are
structural (and hence evaluable by the kernel).  A JS node with `parts`
absent and one with `parts: []` behave identically in every traversal of
gmail-client.ts (`if (payload.parts)` is truthy for `[]` and the loops do
nothing), so both are modelled by the empty forest.  `payload.body?.data`
is modelled by `bodyData`; its JS truthiness test is `dataTruthy`. -/

mutual
inductive MimeNode : Type where
  | mk (mimeType : Option String) (bodyData : Option String) (parts : MimeForest) : MimeNode
inductive MimeForest : Type where
  | nil : MimeForest
  | cons (hd : MimeNode) (tl : MimeForest) : MimeForest
end

def MimeNode.mimeType : MimeNode → Option String
  | .mk mt _ _ => mt

def MimeNode.bodyData : MimeNode → Option String
  | .mk _ bd _ => bd

def MimeNode.parts : MimeNode → MimeForest
  | .mk _ _ ps => ps

/-- Truthiness of `payload.body?.data` (present and a non-empty string). -/
def dataTruthy : Option String → Bool
  | some d => !(d == "")
  | none => false

/-- Truthiness of `mimeType?.startsWith('multipart/')`. -/
def multipartTruthy : Option String → Bool
  | some s => startsWithChars "multipart/".data s.data
  | none => false

/-! ## `extractPlainTextBody` -/

mutual
/-- `extractPlainTextBody` on a non-null payload: a `text/plain` node
returns its decoded data; otherwise the children are scanned twice, first
for plain text (recursing into nested multiparts), then for HTML. -/
def extractPlainCore : MimeNode → String
  | .mk mt bd parts =>
    if mt == some "text/plain" && dataTruthy bd then decodeBodyData (bd.getD "")
    else
      match plainPass parts with
      | some s => s
      | none =>
        match htmlPass parts with
        | some s => s
        | none => ""

/-- The first loop over `payload.parts`: return the first `text/plain`
child with data; recurse into a nested multipart and use its result if
non-empty before considering the next sibling. -/
def plainPass : MimeForest → Option String
  | .nil => none
  | .cons p rest =>
    if p.mimeType == some "text/plain" && dataTruthy p.bodyData then
      some (decodeBodyData (p.bodyData.getD ""))
    else if multipartTruthy p.mimeType then
      let nested := extractPlainCore p
      if nested == "" then plainPass rest else some nested
    else plainPass rest

/-- The second loop over `payload.parts`: convert the first `text/html`
child with data. -/
def htmlPass : MimeForest → Option String
  | .nil => none
  | .cons p rest =>
    if p.mimeType == some "text/html" && dataTruthy p.bodyData then
      some (htmlToText (decodeBodyData (p.bodyData.getD "")))
    else htmlPass rest
end

/-- `extractPlainTextBody` including the null guard `if (!payload) return ''`. -/
def extractPlainTextBody : Option MimeNode → String
  | none => ""
  | some p => extractPlainCore p

/-! ## Tree predicates used to state the claims -/

mutual
/-- A `text/plain` leaf with truthy payload data occurs anywhere in the tree. -/
def existsPlainLeaf : MimeNode → Bool
  | .mk mt bd parts => (mt == some "text/plain" && dataTruthy bd) || existsPlainLeafF parts
def existsPlainLeafF : MimeForest → Bool
  | .nil => false
  | .cons p rest => existsPlainLeaf p || existsPlainLeafF rest
end

mutual
/-- A `text/html` leaf with truthy payload data occurs anywhere in the tree. -/
def existsHtmlLeaf : MimeNode → Bool
  | .mk mt bd parts => (mt == some "text/html" && dataTruthy bd) || existsHtmlLeafF parts
def existsHtmlLeafF : MimeForest → Bool
  | .nil => false
  | .cons p rest => existsHtmlLeaf p || existsHtmlLeafF rest
end

mutual
/-- A textual part is reachable by the scan of `extractPlainTextBody`:
the node itself as a `text/plain` leaf, or — among its children — a
`text/plain` or `text/html` leaf with data, or a `multipart/*` child whose
subtree reaches one. -/
def hasText : MimeNode → Bool
  | .mk mt bd parts => (mt == some "text/plain" && dataTruthy bd) || hasTextF parts
def hasTextF : MimeForest → Bool
  | .nil => false
  | .cons p rest =>
    (p.mimeType == some "text/plain" && dataTruthy p.bodyData) ||
      (p.mimeType == some "text/html" && dataTruthy p.bodyData) ||
        (multipartTruthy p.mimeType && hasText p) || hasTextF rest
end

mutual
/-- Every textual leaf of the tree carries non-degenerate content: plain
data decodes to a non-empty string and HTML data converts to non-empty
text.  Excludes adversarial payloads whose decode or conversion is empty. -/
def wfNode : MimeNode → Bool
  | .mk mt bd parts =>
    (!(mt == some "text/plain" && dataTruthy bd) || !(decodeBodyData (bd.getD "") == "")) &&
      (!(mt == some "text/html" && dataTruthy bd) ||
        !(htmlToText (decodeBodyData (bd.getD "")) == "")) &&
      wfForest parts
def wfForest : MimeForest → Bool
  | .nil => true
  | .cons p rest => wfNode p && wfForest rest
end

/-! ## URL parsing and decoding (platform collaborators of `cleanTrackingUrl`) -/

/-- Value of a hexadecimal digit. -/
def hexVal (c : Char) : Option Nat :=
  let v := c.toNat
  if 48 ≤ v ∧ v ≤ 57 then some (v - 48)
  else if 65 ≤ v ∧ v ≤ 70 then some (v - 55)
  else if 97 ≤ v ∧ v ≤ 102 then some (v - 87)
  else none

/-- A maximal run of `%XX` escapes as bytes, with the remainder; `none` on
a malformed escape (which makes `decodeURIComponent` throw). -/
def pctRun : Nat → List Char → Option (List Nat × List Char)
  | 0, l => some ([], l)
  | fuel + 1, '%' :: c1 :: c2 :: rest =>
    match hexVal c1, hexVal c2 with
    | some h1, some h2 => (pctRun fuel rest).map (fun br => ((h1 * 16 + h2) :: br.1, br.2))
    | _, _ => none
  | _ + 1, '%' :: _ => none
  | _ + 1, l => some ([], l)

/-- `decodeURIComponent`: escape runs must decode as valid UTF-8, anything
malformed throws (modelled as `none`); other characters pass through. -/
def decodeURIComponentChars : Nat → List Char → Option (List Char)
  | 0, _ => some []
  | _ + 1, [] => some []
  | fuel + 1, '%' :: rest =>
    match pctRun (rest.length + 1) ('%' :: rest) with
    | none => none
    | some (bs, rem) =>
      match utf8DecodeStrict bs with
      | none => none
      | some cs => (decodeURIComponentChars fuel rem).map (cs ++ ·)
  | fuel + 1, c :: rest => (decodeURIComponentChars fuel rest).map (c :: ·)

def decodeURIComponentStr (s : String) : Option String :=
  (decodeURIComponentChars (s.data.length + 1) s.data).map String.mk

/-- `application/x-www-form-urlencoded` byte decoding (used by
`URLSearchParams`): `+` is space, valid `%XX` is a byte, anything else and
malformed escapes pass through as literal characters. -/
def formDecodeBytes : Nat → List Char → List Nat
  | 0, _ => []
  | _ + 1, [] => []
  | fuel + 1, '+' :: rest => 0x20 :: formDecodeBytes fuel rest
  | fuel + 1, '%' :: c1 :: c2 :: rest =>
    match hexVal c1, hexVal c2 with
    | some h1, some h2 => (h1 * 16 + h2) :: formDecodeBytes fuel rest
    | _, _ => utf8EncodeCharNat '%'.toNat ++ formDecodeBytes fuel (c1 :: c2 :: rest)
  | fuel + 1, c :: rest => utf8EncodeCharNat c.toNat ++ formDecodeBytes fuel rest

def formDecode (l : List Char) : String :=
  String.mk (utf8DecodeLenient (formDecodeBytes (l.length + 1) l))

/-- Split a character list on a separator character. -/
def splitOnChar (sep : Char) : List Char → List (List Char)
  | [] => [[]]
  | c :: rest =>
    let r := splitOnChar sep rest
    if c == sep then [] :: r
    else
      match r with
      | [] => [[c]]
      | h :: t => (c :: h) :: t

/-- One `name=value` segment of a query string, both sides form-decoded;
a segment without `=` has an empty value. -/
def pairOfSegment (seg : List Char) : String × String :=
  let name := seg.takeWhile (· ≠ '=')
  (formDecode name, formDecode (seg.drop (name.length + 1)))

/-- The decoded name/value pairs of a raw query string. -/
def queryPairs (q : List Char) : List (String × String) :=
  ((splitOnChar '&' q).filter (fun seg => !seg.isEmpty)).map pairOfSegment

/-- `searchParams.get(name)`: the value of the first pair with that name. -/
def getParam (name : String) : List (String × String) → Option String
  | [] => none
  | (n, v) :: rest => if n == name then some v else getParam name rest

/-- Does `sub` occur as a contiguous substring (JS `String.prototype.includes`)? -/
def containsSub (sub : List Char) : Nat → List Char → Bool
  | 0, _ => false
  | _ + 1, [] => sub.isEmpty
  | fuel + 1, c :: rest => startsWithChars sub (c :: rest) || containsSub sub fuel rest

/-- The portions of a parsed URL that `cleanTrackingUrl` consults. -/
structure ParsedUrl where
  hostname : List Char
  pathname : List Char
  query : List Char
deriving DecidableEq

/-- Modelled platform behavior of `new URL(url)`, restricted to what the
caller can pass (the href filter admits only `http://`/`https://` URLs):
parsing succeeds iff the authority is non-empty; hostname is lowercased
with userinfo and port stripped; query excludes the fragment. -/
def parseUrl (url : String) : Option ParsedUrl :=
  let l := url.data
  let afterScheme :=
    if startsWithChars "http://".data l then some (l.drop 7)
    else if startsWithChars "https://".data l then some (l.drop 8)
    else none
  match afterScheme with
  | none => none
  | some r =>
    let authority := r.takeWhile (fun c => !(c == '/' || c == '?' || c == '#'))
    if authority.isEmpty then none
    else
      let hostPort :=
        if authority.contains '@' then (authority.reverse.takeWhile (· ≠ '@')).reverse
        else authority
      let hostname := (hostPort.takeWhile (· ≠ ':')).map asciiLower
      let afterAuth := r.drop authority.length
      let beforeFrag := afterAuth.takeWhile (· ≠ '#')
      let pathname := beforeFrag.takeWhile (· ≠ '?')
      let query := beforeFrag.drop (pathname.length + 1)
      some { hostname := hostname
             pathname := if pathname.isEmpty then ['/'] else pathname
             query := query }

/-! ## `cleanTrackingUrl` and `extractLinksFromPayload` -/

/-- The fixed priority list of redirect-carrying query parameters. -/
def trackingParams : List String := ["url", "u", "redirect", "destination", "target", "link"]

/-- The `for (const param of [...])` loop: the first parameter present
whose (decoded) value begins with `http://` or `https://`. -/
def firstParamHit (pairs : List (String × String)) : List String → Option String
  | [] => none
  | p :: ps =>
    match getParam p pairs with
    | some destUrl =>
      if startsWithChars "http://".data destUrl.data ||
          startsWithChars "https://".data destUrl.data then some destUrl
      else firstParamHit pairs ps
    | none => firstParamHit pairs ps

/-- The tracking-domain patterns of the dead classification. -/
def trackingDomains : List String :=
  ["click.", "track.", "trk.", "email.", "links.",
   "list-manage.com", "mailchimp.com", "beehiiv.com/clicks",
   "convertkit.com", "substack.com/redirect"]

/-- The `isTrackingOnly` classification computed (and never used) by
`cleanTrackingUrl`. -/
def isTrackingOnly (parsed : ParsedUrl) : Bool :=
  trackingDomains.any (fun d =>
    containsSub d.data (parsed.hostname.length + 1) parsed.hostname ||
      containsSub d.data (parsed.pathname.length + 1) parsed.pathname)

/-- `cleanTrackingUrl`: `none` models the `catch` branch returning `null`
(unparseable URL, or `decodeURIComponent` throwing on a matched value). -/
def cleanTrackingUrl (url : String) : Option String :=
  match parseUrl url with
  | none => none
  | some parsed =>
    match firstParamHit (queryPairs parsed.query) trackingParams with
    | some destUrl => decodeURIComponentStr destUrl
    | none =>
      let _classification := isTrackingOnly parsed
      some url

/-- The capture groups of `/href=["']([^"']+)["']/gi` over a string, in
match order. -/
def scanHrefs : Nat → List Char → List String
  | 0, _ => []
  | _ + 1, [] => []
  | fuel + 1, c :: rest =>
    if ciStartsWith "href=".data (c :: rest) then
      match (c :: rest).drop 5 with
      | q :: r2 =>
        if q == '"' || q == '\'' then
          let cap := r2.takeWhile (fun ch => !(ch == '"' || ch == '\''))
          if decide (0 < cap.length) then
            match r2.drop cap.length with
            | _ :: r3 => String.mk cap :: scanHrefs fuel r3
            | [] => scanHrefs fuel rest
          else scanHrefs fuel rest
        else scanHrefs fuel rest
      | [] => scanHrefs fuel rest
    else scanHrefs fuel rest

/-- Insertion into the accumulated link set (`Set.add` preserving
first-encountered order). -/
def insertUnique (acc : List String) (s : String) : List String :=
  if s ∈ acc then acc else acc ++ [s]

/-- The body of the `while` loop of `extractFromHtml` for one href value:
filter, clean, and add the survivor to the set (`if (cleanUrl)` also drops
an empty cleaned string). -/
def processHref (acc : List String) (url : String) : List String :=
  if !(url == "") && !(startsWithChars "mailto:".data url.data) &&
      !(startsWithChars "javascript:".data url.data) &&
      !(startsWithChars "#".data url.data) &&
      (startsWithChars "http://".data url.data || startsWithChars "https://".data url.data) then
    match cleanTrackingUrl url with
    | some cleanUrl => if cleanUrl == "" then acc else insertUnique acc cleanUrl
    | none => acc
  else acc

/-- `extractFromHtml`, accumulating into the caller's link set. -/
def extractFromHtmlAcc (acc : List String) (html : String) : List String :=
  (scanHrefs (html.data.length + 1) html.data).foldl processHref acc

mutual
/-- `extractLinksFromPayload` on a non-null payload: the node's own HTML
(if any), then each child in order — HTML children directly, multipart
children recursively, their deduplicated results merged into the set. -/
def extractLinksCore : MimeNode → List String
  | .mk mt bd parts =>
    let links : List String := []
    let links :=
      if mt == some "text/html" && dataTruthy bd then
        extractFromHtmlAcc links (decodeBodyData (bd.getD ""))
      else links
    linksLoop links parts

/-- The `for (const part of payload.parts)` loop. -/
def linksLoop : List String → MimeForest → List String
  | acc, .nil => acc
  | acc, .cons p rest =>
    let acc :=
      if p.mimeType == some "text/html" && dataTruthy p.bodyData then
        extractFromHtmlAcc acc (decodeBodyData (p.bodyData.getD ""))
      else acc
    let acc :=
      if multipartTruthy p.mimeType then (extractLinksCore p).foldl insertUnique acc
      else acc
    linksLoop acc rest
end

/-- `extractLinksFromPayload` including the null guard. -/
def extractLinksFromPayload : Option MimeNode → List String
  | none => []
  | some p => extractLinksCore p

/-- The body/links extraction performed by `getMessageLight`
(`extractLinksFromPayload` on the payload, then `extractPlainTextBody`). -/
def getMessageLightExtract (payload : Option MimeNode) : List String × String :=
  (extractLinksFromPayload payload, extractPlainTextBody payload)

/-! ## Specification-side link stream (for the order/dedup claims) -/

/-- The cleaned link produced by one href value, if it survives the filter
(spec-side reformulation of `processHref`). -/
def hrefLink (url : String) : Option String :=
  if !(url == "") && !(startsWithChars "mailto:".data url.data) &&
      !(startsWithChars "javascript:".data url.data) &&
      !(startsWithChars "#".data url.data) &&
      (startsWithChars "http://".data url.data || startsWithChars "https://".data url.data) then
    match cleanTrackingUrl url with
    | some cleanUrl => if cleanUrl == "" then none else some cleanUrl
    | none => none
  else none

/-- All surviving links of one HTML body, in match order, duplicates kept. -/
def extractFromHtmlRaw (html : String) : List String :=
  (scanHrefs (html.data.length + 1) html.data).filterMap hrefLink

mutual
/-- The undeduplicated stream of links of the whole tree in traversal
order: the node's own HTML first, then children before later siblings. -/
def rawLinks : MimeNode → List String
  | .mk mt bd parts =>
    (if mt == some "text/html" && dataTruthy bd then
        extractFromHtmlRaw (decodeBodyData (bd.getD ""))
      else []) ++ rawLinksF parts
def rawLinksF : MimeForest → List String
  | .nil => []
  | .cons p rest =>
    (if p.mimeType == some "text/html" && dataTruthy p.bodyData then
        extractFromHtmlRaw (decodeBodyData (p.bodyData.getD ""))
      else []) ++
      (if multipartTruthy p.mimeType then rawLinks p else []) ++ rawLinksF rest
end

/-! ## The `add_account` tool handler -/

/-- One stored account (spec §3: credential plus timestamps, keyed by
address). -/
structure AccountRecord where
  email : String
  credential : String
  addedAt : Nat
  lastUsed : Nat
deriving DecidableEq

/-- A tool response: its text and whether it is flagged as an error
(`isError: true`); a response without the flag has `isError = false`. -/
structure ToolResult where
  text : String
  isError : Bool
deriving DecidableEq

/-- Case-insensitive address normalization (spec §3: unique key, case-
insensitive comparison). -/
def normalizeAddr (s : String) : String := String.mk (s.data.map asciiLower)

/-- Modelled from the spec: `AccountManager.accountExists` — the
account-manager.ts source is not among the given files; §4.1 `exists`:
true iff a record with that normalized address is present. -/
def accountExists (store : List AccountRecord) (email : String) : Bool :=
  store.any (fun r => normalizeAddr r.email == normalizeAddr email)

/-- Modelled from the spec: `AccountManager.addAccount` — §4.1 `add`:
obtains an initial credential via the external consent flow (passed in as
`cred`), creates the record with current timestamps (`now`), persists. -/
def addAccount (store : List AccountRecord) (email cred : String) (now : Nat) :
    List AccountRecord :=
  store ++ [⟨email, cred, now, now⟩]

/-- The `add_account` tool handler (src/unnamed/part_000): an existing
account short-circuits to a plain informational response — without the
`isError` flag — and performs no store mutation; otherwise the account is
added and a success message returned. -/
def addAccountHandler (store : List AccountRecord) (email cred : String) (now : Nat) :
    ToolResult × List AccountRecord :=
  if accountExists store email then
    ({ text := "Account " ++ email ++ " already exists.", isError := false }, store)
  else
    ({ text := "Account " ++ email ++
          " added successfully. You may need to authenticate in your browser.",
       isError := false }, addAccount store email cred now)

/-! ## General helper lemmas -/

theorem charOfNat_toNat (c : Char) : Char.ofNat c.toNat = c := by
  have h : c.toNat.isValidChar := c.valid
  unfold Char.ofNat
  rw [dif_pos h]
  unfold Char.ofNatAux
  apply Char.ext
  apply UInt32.ext
  simp [Char.toNat, UInt32.ofNat', UInt32.toNat, BitVec.toNat_ofNatLt]

/-! ## Claim C4: composition structure -/

/-- Claim C4. For every send request, the composed message is the To and
Subject lines, a Cc line only when cc is truthy, a Bcc line only when bcc
is truthy, the fixed Content-Type line, a blank line, and the body
verbatim — joined by CRLF and then URL-safe-base64 encoded for the
transport. -/
theorem c4_compose_structure (toAddrs : List String) (subject body : String)
    (cc bcc : Option (List String)) :
    sendEmailRaw toAddrs subject body cc bcc =
      String.mk (b64urlEncode (utf8Bytes (String.intercalate "\r\n"
        (["To: " ++ String.intercalate ", " toAddrs,
          "Subject: " ++ encodeSubject subject] ++
          (if optListTruthy cc then ["Cc: " ++ String.intercalate ", " (cc.getD [])] else []) ++
          (if optListTruthy bcc then ["Bcc: " ++ String.intercalate ", " (bcc.getD [])] else []) ++
          ["Content-Type: text/plain; charset=utf-8", "", body])))) := by
  unfold sendEmailRaw buildEmail joinAddrs
  cases optListTruthy cc <;> cases optListTruthy bcc <;> simp

/-! ## Claim C7: extraction is total and degrades to empty results -/

/-- Claim C7. The extraction path is total: both extractors are total
functions of the payload, a null payload yields the empty string and the
empty list, and so does a node with missing fields or an unrecognized
mimeType, for every value of the body-data field. -/
theorem c7_extraction_total :
    extractPlainTextBody none = "" ∧ extractLinksFromPayload none = [] ∧
    (∀ bd : Option String,
      extractPlainTextBody (some (MimeNode.mk none bd MimeForest.nil)) = "" ∧
      extractLinksFromPayload (some (MimeNode.mk none bd MimeForest.nil)) = []) ∧
    (∀ bd : Option String,
      extractPlainTextBody (some (MimeNode.mk (some "application/pdf") bd MimeForest.nil)) = "" ∧
      extractLinksFromPayload (some (MimeNode.mk (some "application/pdf") bd MimeForest.nil)) = []) :=
  ⟨rfl, rfl, fun _ => ⟨rfl, rfl⟩, fun _ => ⟨rfl, rfl⟩⟩

/-! ## Claim C9: adding an existing account -/

/-- Claim C9, counterexample. With a store already holding `a@x.com`, adding
`a@x.com` again does not produce an error outcome: the handler's response
is not flagged as an error (`isError` is false, unlike the catch branch
that sets `isError: true`), although the store is indeed left unchanged. -/
theorem c9_counterexample :
    (addAccountHandler [⟨"a@x.com", "cred0", 0, 0⟩] "a@x.com" "cred1" 5).1.isError = false ∧
    (addAccountHandler [⟨"a@x.com", "cred0", 0, 0⟩] "a@x.com" "cred1" 5).2 =
      [⟨"a@x.com", "cred0", 0, 0⟩] := by
  decide

/-- Claim C9, amended. For every address with an existing record
(case-insensitively), the add-account handler leaves the store unmodified
and returns a distinguishable informational "already exists" response,
but as a normal non-error response (no `isError` flag), not a
`ConflictError`. -/
theorem c9_amended (store : List AccountRecord) (email cred : String) (now : Nat)
    (h : accountExists store email = true) :
    addAccountHandler store email cred now =
      ({ text := "Account " ++ email ++ " already exists.", isError := false }, store) := by
  simp [addAccountHandler, h]

/-- Witness for C9 (amended), at a store holding `a@x.com` and an add of
`A@X.com` (exercising the case-insensitive comparison). -/
theorem c9_amended_witness :
    accountExists [⟨"a@x.com", "cred0", 0, 0⟩] "A@X.com" = true ∧
    addAccountHandler [⟨"a@x.com", "cred0", 0, 0⟩] "A@X.com" "cred1" 5 =
      ({ text := "Account A@X.com already exists.", isError := false },
        [⟨"a@x.com", "cred0", 0, 0⟩]) :=
  ⟨by decide,
    (c9_amended [⟨"a@x.com", "cred0", 0, 0⟩] "A@X.com" "cred1" 5 (by decide)).trans
      (by decide)⟩

/-! ## Claim C10: a root-level HTML leaf -/

/-- Claim C10. For a payload that is a single `text/html` leaf with body
data and no parts, the light read returns the links extracted from that
HTML but an empty plain-text body: the link extractor inspects the root
node itself, while the plain-text HTML fallback only inspects children. -/
theorem c10_root_html (d : String) (hd : dataTruthy (some d) = true) :
    getMessageLightExtract (some (MimeNode.mk (some "text/html") (some d) MimeForest.nil)) =
      (extractFromHtmlAcc [] (decodeBodyData d), "") := by
  have hhtml : ((some "text/html" : Option String) == some "text/html") = true := by decide
  have hplain : ((some "text/html" : Option String) == some "text/plain") = false := by decide
  simp [getMessageLightExtract, extractLinksFromPayload, extractLinksCore, linksLoop,
    extractPlainTextBody, extractPlainCore, plainPass, htmlPass,
    MimeNode.mimeType, MimeNode.bodyData, hd, hhtml, hplain]

/-- Witness for C10 at a concrete HTML leaf containing one anchor. -/
theorem c10_root_html_witness :
    getMessageLightExtract (some (MimeNode.mk (some "text/html")
      (some "PGEgaHJlZj0iaHR0cHM6Ly9jbGlja3MuZXhhbXBsZS5jb20veD91PWh0dHBzJTNBJTJGJTJGcmVhbC5leGFtcGxlLmNvbSUyRnBhZ2UiPmdvPC9hPg==")
      MimeForest.nil)) = (["https://real.example.com/page"], "") :=
  (c10_root_html
    "PGEgaHJlZj0iaHR0cHM6Ly9jbGlja3MuZXhhbXBsZS5jb20veD91PWh0dHBzJTNBJTJGJTJGcmVhbC5leGFtcGxlLmNvbSUyRnBhZ2UiPmdvPC9hPg=="
    (by decide)).trans (by decide)

/-! ## Claim C8: tracking-URL cleanup keeps or drops the URL -/

/-- Claim C8. For every URL string: if it parses but none of the six
recognized query parameters carries an http(s) destination, cleanup
returns the original URL unchanged (independently of the tracking-domain
classification, which does not appear in the result); if it fails to
parse, the cleanup yields `none` and the link loop adds nothing. -/
theorem c8_tracking_cleanup (url : String) :
    (parseUrl url = none → cleanTrackingUrl url = none) ∧
    (∀ parsed, parseUrl url = some parsed →
      firstParamHit (queryPairs parsed.query) trackingParams = none →
      cleanTrackingUrl url = some url) ∧
    (∀ acc : List String, cleanTrackingUrl url = none → processHref acc url = acc) := by
  refine ⟨?_, ?_, ?_⟩
  · intro h
    simp [cleanTrackingUrl, h]
  · intro parsed h hnone
    simp [cleanTrackingUrl, h, hnone]
  · intro acc h
    unfold processHref
    split
    · rw [h]
    · rfl

/-- Witness for C8: an unparseable URL is dropped; a URL on a tracking
domain with no destination parameter is kept verbatim. -/
theorem c8_tracking_cleanup_witness :
    cleanTrackingUrl "https://" = none ∧
    cleanTrackingUrl "http://click.example.com/keep?x=1" =
      some "http://click.example.com/keep?x=1" ∧
    processHref [] "https://" = [] :=
  ⟨(c8_tracking_cleanup "https://").1 (by decide),
    (c8_tracking_cleanup "http://click.example.com/keep?x=1").2.1
      ⟨"click.example.com".data, "/keep".data, "x=1".data⟩ (by decide) (by decide),
    (c8_tracking_cleanup "https://").2.2 []
      ((c8_tracking_cleanup "https://").1 (by decide))⟩

/-! ## Claim C1: plain text does not always win -/

/-- Claim C1, counterexample. In a tree whose first child is a multipart
wrapping only an HTML leaf and whose second child is a `text/plain` leaf,
extraction returns the HTML-derived conversion, not the plain-text
content, although a plain-text leaf with payload data exists in the tree:
the recursion accepts a nested subtree's HTML fallback before looking at
later siblings. -/
theorem c1_counterexample :
    (let tree := MimeNode.mk (some "multipart/mixed") none
      (.cons (.mk (some "multipart/alternative") none
          (.cons (.mk (some "text/html") (some "PGI+SDwvYj4=") .nil) .nil))
        (.cons (.mk (some "text/plain") (some "aGVsbG8=") .nil) .nil))
    existsPlainLeaf tree = true ∧
      extractPlainTextBody (some tree) = htmlToText (decodeBodyData "PGI+SDwvYj4=") ∧
      extractPlainTextBody (some tree) ≠ decodeBodyData "aGVsbG8=") := by
  refine ⟨by decide, by decide, by decide⟩

/-- Claim C1, amended. Within one multipart scope the HTML fallback runs
only after the plain-text scan over that scope fails, so for the claim's
concrete shape — a `text/plain` leaf nested two levels inside two
`multipart/*` wrappers with a sibling `text/html` leaf at top level — the
nested plain-text content wins for every choice of payloads. -/
theorem c1_amended (ds dt : String) (hds : ds ≠ "") (hdec : decodeBodyData ds ≠ "") :
    extractPlainTextBody (some (MimeNode.mk (some "multipart/mixed") none
      (.cons (.mk (some "multipart/mixed") none
          (.cons (.mk (some "multipart/alternative") none
              (.cons (.mk (some "text/plain") (some ds) .nil) .nil)) .nil))
        (.cons (.mk (some "text/html") (some dt) .nil) .nil)))) =
      decodeBodyData ds := by
  have htr : dataTruthy (some ds) = true := by simp [dataTruthy, hds]
  have hne : (decodeBodyData ds == "") = false := by simp [hdec]
  have hb1 : ((some "multipart/mixed" : Option String) == some "text/plain") = false := by decide
  have hb2 : ((some "multipart/alternative" : Option String) == some "text/plain") = false := by
    decide
  have hb3 : ((some "text/plain" : Option String) == some "text/plain") = true := by decide
  have hm1 : multipartTruthy (some "multipart/mixed") = true := by decide
  have hm2 : multipartTruthy (some "multipart/alternative") = true := by decide
  simp [extractPlainTextBody, extractPlainCore, plainPass, htmlPass,
    MimeNode.mimeType, MimeNode.bodyData, htr, hne, hb1, hb2, hb3, hm1, hm2]

/-- Witness for C1 (amended) at concrete payloads. -/
theorem c1_amended_witness :
    extractPlainTextBody (some (MimeNode.mk (some "multipart/mixed") none
      (.cons (.mk (some "multipart/mixed") none
          (.cons (.mk (some "multipart/alternative") none
              (.cons (.mk (some "text/plain") (some "aGVsbG8=") .nil) .nil)) .nil))
        (.cons (.mk (some "text/html") (some "PGI+SDwvYj4=") .nil) .nil)))) = "hello" :=
  (c1_amended "aGVsbG8=" "PGI+SDwvYj4=" (by decide) (by decide)).trans (by decide)

/-! ## Claim C5: href filtering and destination-parameter priority -/

/-- The value of one named query parameter when it carries an http(s)
destination (specification-side reformulation of the loop body of
`cleanTrackingUrl`). -/
def httpParamValue (pairs : List (String × String)) (name : String) : Option String :=
  match getParam name pairs with
  | some v =>
    if startsWithChars "http://".data v.data || startsWithChars "https://".data v.data then some v
    else none
  | none => none

theorem firstParamHit_cons (pairs : List (String × String)) (p : String) (ps : List String) :
    firstParamHit pairs (p :: ps) = (httpParamValue pairs p).or (firstParamHit pairs ps) := by
  conv_lhs => rw [firstParamHit]
  cases h : getParam p pairs with
  | none => simp [httpParamValue, h]
  | some v =>
    cases hs : (startsWithChars "http://".data v.data || startsWithChars "https://".data v.data) <;>
      simp [httpParamValue, h, hs]

/-- Claim C5. A scanned href value survives only if it starts with
`http://` or `https://`; for a surviving URL the parameters url, u,
redirect, destination, target, link are consulted in that fixed order and
the first http(s)-carrying one is decoded and emitted in place of the
outer URL, the original URL being kept when none matches; and on the
claim's concrete anchor the extracted list is exactly
`["https://real.example.com/page"]`. -/
theorem c5_href_filter_and_priority :
    (∀ (acc : List String) (url : String),
      (startsWithChars "http://".data url.data ||
        startsWithChars "https://".data url.data) = false →
      processHref acc url = acc) ∧
    (∀ (url : String) (parsed : ParsedUrl), parseUrl url = some parsed →
      cleanTrackingUrl url =
        ((httpParamValue (queryPairs parsed.query) "url").or
          ((httpParamValue (queryPairs parsed.query) "u").or
            ((httpParamValue (queryPairs parsed.query) "redirect").or
              ((httpParamValue (queryPairs parsed.query) "destination").or
                ((httpParamValue (queryPairs parsed.query) "target").or
                  (httpParamValue (queryPairs parsed.query) "link")))))).elim
          (some url) decodeURIComponentStr) ∧
    extractLinksFromPayload (some (MimeNode.mk (some "text/html")
      (some "PGEgaHJlZj0iaHR0cHM6Ly9jbGlja3MuZXhhbXBsZS5jb20veD91PWh0dHBzJTNBJTJGJTJGcmVhbC5leGFtcGxlLmNvbSUyRnBhZ2UiPmdvPC9hPg==")
      MimeForest.nil)) = ["https://real.example.com/page"] := by
  refine ⟨?_, ?_, by decide⟩
  · intro acc url hf
    simp [processHref, hf]
  · intro url parsed h
    have hch : firstParamHit (queryPairs parsed.query) trackingParams =
        ((httpParamValue (queryPairs parsed.query) "url").or
          ((httpParamValue (queryPairs parsed.query) "u").or
            ((httpParamValue (queryPairs parsed.query) "redirect").or
              ((httpParamValue (queryPairs parsed.query) "destination").or
                ((httpParamValue (queryPairs parsed.query) "target").or
                  (httpParamValue (queryPairs parsed.query) "link")))))) := by
      simp only [trackingParams, firstParamHit_cons]
      simp [firstParamHit]
    simp only [cleanTrackingUrl, h, hch]
    cases ((httpParamValue (queryPairs parsed.query) "url").or
      ((httpParamValue (queryPairs parsed.query) "u").or
        ((httpParamValue (queryPairs parsed.query) "redirect").or
          ((httpParamValue (queryPairs parsed.query) "destination").or
            ((httpParamValue (queryPairs parsed.query) "target").or
              (httpParamValue (queryPairs parsed.query) "link")))))) <;> simp

/-- Witness for C5: a `mailto:` href is discarded, and on a URL whose
earlier-priority parameter `u` is not an http(s) value the later
`redirect` parameter wins and is decoded. -/
theorem c5_witness :
    processHref [] "mailto:x@y.z" = [] ∧
    cleanTrackingUrl "https://t.example.com/p?redirect=https%3A%2F%2Fdest.example.com&u=plain" =
      some "https://dest.example.com" :=
  ⟨(c5_href_filter_and_priority).1 [] "mailto:x@y.z" (by decide),
    ((c5_href_filter_and_priority).2.1
        "https://t.example.com/p?redirect=https%3A%2F%2Fdest.example.com&u=plain"
        ⟨"t.example.com".data, "/p".data,
          "redirect=https%3A%2F%2Fdest.example.com&u=plain".data⟩ (by decide)).trans
      (by decide)⟩

/-! ## Claim C6: full traversal, order, and deduplication -/

theorem processHref_eq_hrefLink (acc : List String) (url : String) :
    processHref acc url =
      match hrefLink url with
      | some c => insertUnique acc c
      | none => acc := by
  unfold processHref hrefLink
  split
  · cases h : cleanTrackingUrl url with
    | none => simp
    | some c => cases hc : (c == "") <;> simp [hc]
  · rfl

theorem extractFromHtmlAcc_raw (acc : List String) (html : String) :
    extractFromHtmlAcc acc html = List.foldl insertUnique acc (extractFromHtmlRaw html) := by
  unfold extractFromHtmlAcc extractFromHtmlRaw
  generalize scanHrefs (html.data.length + 1) html.data = urls
  induction urls generalizing acc with
  | nil => rfl
  | cons u us ih =>
    rw [List.foldl_cons, processHref_eq_hrefLink, List.filterMap_cons]
    cases h : hrefLink u <;> simp [ih]

theorem mem_insertUnique (acc : List String) (x a : String) :
    a ∈ insertUnique acc x ↔ a ∈ acc ∨ a = x := by
  by_cases h : x ∈ acc
  · simp only [insertUnique, if_pos h]
    exact ⟨Or.inl, fun hh => hh.elim id (fun he => he ▸ h)⟩
  · simp [insertUnique, if_neg h]

theorem mem_foldl_insertUnique (xs : List String) (acc : List String) (a : String) :
    a ∈ List.foldl insertUnique acc xs ↔ a ∈ acc ∨ a ∈ xs := by
  induction xs generalizing acc with
  | nil => simp
  | cons x xs ih =>
    rw [List.foldl_cons, ih, mem_insertUnique]
    simp [or_assoc]

theorem foldl_insertUnique_insertUnique (acc inner : List String) (y : String) :
    List.foldl insertUnique acc (insertUnique inner y) =
      insertUnique (List.foldl insertUnique acc inner) y := by
  by_cases h : y ∈ inner
  · rw [insertUnique, if_pos h, insertUnique,
      if_pos ((mem_foldl_insertUnique inner acc y).mpr (Or.inr h))]
  · rw [insertUnique, if_neg h, List.foldl_append]
    rfl

theorem foldl_insertUnique_foldl (r inner acc : List String) :
    List.foldl insertUnique acc (List.foldl insertUnique inner r) =
      List.foldl insertUnique (List.foldl insertUnique acc inner) r := by
  induction r generalizing inner with
  | nil => rfl
  | cons y r ih =>
    rw [List.foldl_cons, ih (insertUnique inner y), foldl_insertUnique_insertUnique,
      List.foldl_cons]

theorem nodup_insertUnique (acc : List String) (x : String) (h : acc.Nodup) :
    (insertUnique acc x).Nodup := by
  by_cases hm : x ∈ acc
  · rw [insertUnique, if_pos hm]; exact h
  · rw [insertUnique, if_neg hm]
    simp [List.nodup_append, h, hm]

theorem nodup_foldl_insertUnique (xs acc : List String) (h : acc.Nodup) :
    (List.foldl insertUnique acc xs).Nodup := by
  induction xs generalizing acc with
  | nil => exact h
  | cons x xs ih => exact ih _ (nodup_insertUnique _ _ h)

mutual
theorem linksCore_raw : ∀ p : MimeNode,
    extractLinksCore p = List.foldl insertUnique [] (rawLinks p)
  | .mk mt bd parts => by
    unfold extractLinksCore rawLinks
    rw [linksLoop_raw parts, List.foldl_append]
    cases hcond : (mt == some "text/html" && dataTruthy bd) <;>
      simp [hcond, extractFromHtmlAcc_raw]
theorem linksLoop_raw : ∀ (fs : MimeForest) (acc : List String),
    linksLoop acc fs = List.foldl insertUnique acc (rawLinksF fs)
  | .nil, _ => rfl
  | .cons p rest, acc => by
    unfold linksLoop rawLinksF
    rw [List.foldl_append, List.foldl_append, linksLoop_raw rest]
    cases hh : (p.mimeType == some "text/html" && dataTruthy p.bodyData) <;>
      cases hm : multipartTruthy p.mimeType <;>
        simp [hh, hm, extractFromHtmlAcc_raw, linksCore_raw p, foldl_insertUnique_foldl]
end

/-- Claim C6, counterexample. An HTML leaf nested below a non-multipart
intermediate node is never visited: although the tree contains a
`text/html` leaf whose anchor would contribute a link, extraction returns
the empty list (recursion descends only into `multipart/*` children). -/
theorem c6_counterexample :
    (let tree := MimeNode.mk (some "multipart/mixed") none
      (.cons (.mk (some "application/octet-stream") none
        (.cons (.mk (some "text/html")
          (some "PGEgaHJlZj0iaHR0cHM6Ly9leGFtcGxlLmNvbS9hIj54PC9hPg==") .nil) .nil)) .nil)
    existsHtmlLeaf tree = true ∧
      extractFromHtmlRaw (decodeBodyData "PGEgaHJlZj0iaHR0cHM6Ly9leGFtcGxlLmNvbS9hIj54PC9hPg==") =
        ["https://example.com/a"] ∧
      extractLinksFromPayload (some tree) = []) := by
  refine ⟨by decide, by decide, by decide⟩

/-- Claim C6, amended. Link extraction visits every *reachable*
`text/html` leaf — the root and, recursively, the HTML children of
visited nodes, descending only into `multipart/*` children — even when a
plain-text part exists, and the result is exactly the first-occurrence
deduplication of the raw link stream in document order (children before
later siblings); in particular the result is duplicate-free, and the same
href in two different HTML leaves contributes one entry. -/
theorem c6_amended :
    (∀ p : MimeNode,
      extractLinksFromPayload (some p) = List.foldl insertUnique [] (rawLinks p)) ∧
    (∀ p : MimeNode, (extractLinksFromPayload (some p)).Nodup) ∧
    extractLinksFromPayload (some (MimeNode.mk (some "multipart/alternative") none
      (.cons (.mk (some "text/html")
          (some "PGEgaHJlZj0iaHR0cHM6Ly9leGFtcGxlLmNvbS9hIj54PC9hPg==") .nil)
        (.cons (.mk (some "text/html")
          (some "PGEgaHJlZj0iaHR0cHM6Ly9leGFtcGxlLmNvbS9hIj54PC9hPg==") .nil) .nil)))) =
      ["https://example.com/a"] := by
  refine ⟨fun p => linksCore_raw p, ?_, by decide⟩
  intro p
  rw [show extractLinksFromPayload (some p) = extractLinksCore p from rfl, linksCore_raw p]
  exact nodup_foldl_insertUnique _ _ List.nodup_nil

/-! ## Claim C2: when is the extracted body empty? -/

/-- The value computed by the two scanning passes of
`extractPlainTextBody` over a node's children. -/
def passResult (fs : MimeForest) : String :=
  match plainPass fs with
  | some s => s
  | none =>
    match htmlPass fs with
    | some s => s
    | none => ""

theorem extractPlainCore_eq (mt bd : Option String) (parts : MimeForest) :
    extractPlainCore (.mk mt bd parts) =
      if (mt == some "text/plain" && dataTruthy bd) = true then decodeBodyData (bd.getD "")
      else passResult parts := by
  rw [extractPlainCore, passResult]

theorem multipartTruthy_not_html (mt : Option String) (h : multipartTruthy mt = true) :
    (mt == some "text/html") = false := by
  cases mt with
  | none => simp [multipartTruthy] at h
  | some s =>
    by_cases hs : s = "text/html"
    · subst hs; exact absurd h (by decide)
    · simp only [beq_eq_false_iff_ne, ne_eq, Option.some.injEq]; exact hs

theorem plainPass_ne_empty : ∀ fs : MimeForest, wfForest fs = true →
    ∀ s, plainPass fs = some s → s ≠ ""
  | .nil => by intro _ s h; simp [plainPass] at h
  | .cons (.mk mt bd ps) rest => by
    intro hwf s h
    rw [wfForest] at hwf
    obtain ⟨hwn, hwr⟩ := (Bool.and_eq_true _ _).mp hwf
    rw [plainPass] at h
    simp only [MimeNode.mimeType, MimeNode.bodyData] at h
    by_cases h1 : (mt == some "text/plain" && dataTruthy bd) = true
    · rw [if_pos h1] at h
      injection h with h'
      subst h'
      rw [wfNode] at hwn
      obtain ⟨hAB, _⟩ := (Bool.and_eq_true _ _).mp hwn
      obtain ⟨hA, _⟩ := (Bool.and_eq_true _ _).mp hAB
      rw [h1] at hA
      simpa using hA
    · rw [Bool.not_eq_true] at h1
      rw [h1] at h
      simp only [Bool.false_eq_true, if_false] at h
      by_cases h2 : multipartTruthy mt = true
      · rw [if_pos h2] at h
        by_cases h3 : (extractPlainCore (.mk mt bd ps) == "") = true
        · rw [if_pos h3] at h
          exact plainPass_ne_empty rest hwr s h
        · rw [Bool.not_eq_true] at h3
          rw [h3] at h
          simp only [Bool.false_eq_true, if_false] at h
          injection h with h'
          subst h'
          simpa using h3
      · rw [Bool.not_eq_true] at h2
        rw [h2] at h
        simp only [Bool.false_eq_true, if_false] at h
        exact plainPass_ne_empty rest hwr s h

mutual
theorem extractPlainCore_empty_iff : ∀ p : MimeNode, wfNode p = true →
    (extractPlainCore p = "" ↔ hasText p = false)
  | .mk mt bd parts => by
    intro hwf
    have hwf' := hwf
    rw [wfNode] at hwf'
    obtain ⟨hAB, hC⟩ := (Bool.and_eq_true _ _).mp hwf'
    obtain ⟨hA, hB⟩ := (Bool.and_eq_true _ _).mp hAB
    rw [extractPlainCore_eq, hasText]
    by_cases h1 : (mt == some "text/plain" && dataTruthy bd) = true
    · rw [if_pos h1, h1]
      have hdec : decodeBodyData (bd.getD "") ≠ "" := by
        rw [h1] at hA; simpa using hA
      simp [hdec]
    · rw [Bool.not_eq_true] at h1
      rw [h1]
      simp only [Bool.false_eq_true, if_false, Bool.false_or]
      exact passResult_empty_iff parts hC
theorem passResult_empty_iff : ∀ fs : MimeForest, wfForest fs = true →
    (passResult fs = "" ↔ hasTextF fs = false)
  | .nil => by intro _; simp [passResult, plainPass, htmlPass, hasTextF]
  | .cons (.mk mt bd ps) rest => by
    intro hwf
    rw [wfForest] at hwf
    obtain ⟨hwn, hwr⟩ := (Bool.and_eq_true _ _).mp hwf
    have hwn' := hwn
    rw [wfNode] at hwn'
    obtain ⟨hAB, _⟩ := (Bool.and_eq_true _ _).mp hwn'
    obtain ⟨hA, hB⟩ := (Bool.and_eq_true _ _).mp hAB
    by_cases h1 : (mt == some "text/plain" && dataTruthy bd) = true
    · have hdec : decodeBodyData (bd.getD "") ≠ "" := by
        rw [h1] at hA; simpa using hA
      have hpp : plainPass (.cons (.mk mt bd ps) rest) =
          some (decodeBodyData (bd.getD "")) := by
        rw [plainPass]
        simp only [MimeNode.mimeType, MimeNode.bodyData]
        rw [if_pos h1]
      rw [passResult, hpp, hasTextF]
      simp only [MimeNode.mimeType, MimeNode.bodyData, h1, Bool.true_or]
      simp [hdec]
    · rw [Bool.not_eq_true] at h1
      by_cases h2 : multipartTruthy mt = true
      · have hh3 : (mt == some "text/html" && dataTruthy bd) = false := by
          rw [multipartTruthy_not_html mt h2]; rfl
        by_cases h3 : extractPlainCore (.mk mt bd ps) = ""
        · have hpp : plainPass (.cons (.mk mt bd ps) rest) = plainPass rest := by
            rw [plainPass]
            simp only [MimeNode.mimeType, MimeNode.bodyData, h1, Bool.false_eq_true, if_false]
            rw [if_pos h2]
            simp [h3]
          have hhp : htmlPass (.cons (.mk mt bd ps) rest) = htmlPass rest := by
            rw [htmlPass]
            simp only [MimeNode.mimeType, MimeNode.bodyData, hh3, Bool.false_eq_true, if_false]
          have hht : hasText (.mk mt bd ps) = false :=
            (extractPlainCore_empty_iff (.mk mt bd ps) hwn).mp h3
          have hskip : passResult (.cons (.mk mt bd ps) rest) = passResult rest := by
            rw [passResult, passResult, hpp, hhp]
          have htf : hasTextF (.cons (.mk mt bd ps) rest) = hasTextF rest := by
            rw [hasTextF]
            simp [MimeNode.mimeType, MimeNode.bodyData, h1, hh3, hht]
          rw [hskip, htf]
          exact passResult_empty_iff rest hwr
        · have hne : (extractPlainCore (.mk mt bd ps) == "") = false := by
            simpa using h3
          have hpp : plainPass (.cons (.mk mt bd ps) rest) =
              some (extractPlainCore (.mk mt bd ps)) := by
            rw [plainPass]
            simp only [MimeNode.mimeType, MimeNode.bodyData, h1, Bool.false_eq_true, if_false]
            rw [if_pos h2]
            simp [hne]
          have hht : hasText (.mk mt bd ps) = true := by
            cases hc : hasText (.mk mt bd ps)
            · exact absurd ((extractPlainCore_empty_iff (.mk mt bd ps) hwn).mpr hc) h3
            · rfl
          rw [passResult, hpp, hasTextF]
          simp only [MimeNode.mimeType, MimeNode.bodyData, h2, hht, Bool.and_true, Bool.true_and]
          simp [h3, h2]
      · rw [Bool.not_eq_true] at h2
        have hpp : plainPass (.cons (.mk mt bd ps) rest) = plainPass rest := by
          rw [plainPass]
          simp only [MimeNode.mimeType, MimeNode.bodyData, h1, h2, Bool.false_eq_true, if_false]
        by_cases h3 : (mt == some "text/html" && dataTruthy bd) = true
        · have hconv : htmlToText (decodeBodyData (bd.getD "")) ≠ "" := by
            rw [h3] at hB; simpa using hB
          have hhp : htmlPass (.cons (.mk mt bd ps) rest) =
              some (htmlToText (decodeBodyData (bd.getD ""))) := by
            rw [htmlPass]
            simp only [MimeNode.mimeType, MimeNode.bodyData]
            rw [if_pos h3]
          rw [passResult, hpp, hhp, hasTextF]
          simp only [MimeNode.mimeType, MimeNode.bodyData, h3, Bool.true_or, Bool.or_true]
          cases hps : plainPass rest with
          | some s =>
            have := plainPass_ne_empty rest hwr s hps
            simp [this, h1]
          | none => simp [hconv, h1]
        · rw [Bool.not_eq_true] at h3
          have hhp : htmlPass (.cons (.mk mt bd ps) rest) = htmlPass rest := by
            rw [htmlPass]
            simp only [MimeNode.mimeType, MimeNode.bodyData, h3, Bool.false_eq_true, if_false]
          have hskip : passResult (.cons (.mk mt bd ps) rest) = passResult rest := by
            rw [passResult, passResult, hpp, hhp]
          have htf : hasTextF (.cons (.mk mt bd ps) rest) = hasTextF rest := by
            rw [hasTextF]
            simp [MimeNode.mimeType, MimeNode.bodyData, h1, h2, h3]
          rw [hskip, htf]
          exact passResult_empty_iff rest hwr
end

/-- Claim C2, counterexample. Plain-text extraction can return `""` although
a `text/plain` leaf with payload data exists in the tree: a leaf below a
non-multipart intermediate node is never reached by the scan, which
descends only into `multipart/*` children. -/
theorem c2_counterexample :
    (let tree := MimeNode.mk (some "multipart/mixed") none
      (.cons (.mk (some "application/octet-stream") none
        (.cons (.mk (some "text/plain") (some "aGVsbG8=") .nil) .nil)) .nil)
    existsPlainLeaf tree = true ∧ extractPlainTextBody (some tree) = "") := by
  refine ⟨by decide, by decide⟩

/-- Claim C2, amended. For every tree whose textual leaves are
non-degenerate (plain data decodes non-empty, HTML data converts
non-empty), extraction returns `""` iff no textual part is reachable by
the scan — a `text/plain` leaf at the root, or, among children of scanned
nodes, a `text/plain` or `text/html` leaf with data, descending only into
`multipart/*` children. -/
theorem c2_amended (p : MimeNode) (hwf : wfNode p = true) :
    extractPlainTextBody (some p) = "" ↔ hasText p = false :=
  extractPlainCore_empty_iff p hwf

/-- Witness for C2 (amended): a well-formed tree with an unreachable-only
payload extracts to the empty string. -/
theorem c2_amended_witness :
    wfNode (MimeNode.mk (some "multipart/mixed") none
      (.cons (.mk (some "image/png") (some "QUFBQQ==") .nil) .nil)) = true ∧
    extractPlainTextBody (some (MimeNode.mk (some "multipart/mixed") none
      (.cons (.mk (some "image/png") (some "QUFBQQ==") .nil) .nil))) = "" :=
  ⟨by decide,
    (c2_amended (MimeNode.mk (some "multipart/mixed") none
      (.cons (.mk (some "image/png") (some "QUFBQQ==") .nil) .nil)) (by decide)).mpr
      (by decide)⟩

/-! ## Claim C3: subject encoding round-trips -/

theorem char_toNat_lt (c : Char) : c.toNat < 0x110000 := by
  have hvalid : c.toNat < 0xd800 ∨ (0xdfff < c.toNat ∧ c.toNat < 0x110000) := c.valid
  omega

theorem utf8EncodeCharNat_lt (n : Nat) (hn : n < 0x110000) :
    ∀ b ∈ utf8EncodeCharNat n, b < 256 := by
  intro b hb
  unfold utf8EncodeCharNat at hb
  split_ifs at hb with h1 h2 h3 <;> simp only [List.mem_cons, List.not_mem_nil, or_false] at hb
  · omega
  · rcases hb with rfl | rfl <;> omega
  · rcases hb with rfl | rfl | rfl <;> omega
  · rcases hb with rfl | rfl | rfl | rfl <;> omega

theorem utf8Encode_lt : ∀ cs : List Char, ∀ b ∈ utf8Encode cs, b < 256
  | [] => by intro b hb; simp [utf8Encode] at hb
  | c :: cs => by
    intro b hb
    rw [utf8Encode] at hb
    rcases List.mem_append.mp hb with h | h
    · exact utf8EncodeCharNat_lt c.toNat (char_toNat_lt c) b h
    · exact utf8Encode_lt cs b h

theorem b64Char_mem_alphabet : ∀ n, n < 64 → isB64Char (b64Char n) = true := by decide

theorem b64Val_b64Char : ∀ n, n < 64 → b64Val (b64Char n) = n := by decide

theorem isB64Char_pad : isB64Char '=' = false := by decide

theorem b64_roundtrip : ∀ bs : List Nat, (∀ b ∈ bs, b < 256) →
    b64Decode (b64Encode bs) = bs
  | [] => by intro _; rfl
  | [b1] => by
    intro h
    have hb1 : b1 < 256 := h b1 (by simp)
    have e1 := b64Char_mem_alphabet (b1 / 4) (by omega)
    have e2 := b64Char_mem_alphabet (b1 % 4 * 16) (by omega)
    have v1 := b64Val_b64Char (b1 / 4) (by omega)
    have v2 := b64Val_b64Char (b1 % 4 * 16) (by omega)
    unfold b64Decode b64Encode
    simp only [List.filter_cons, e1, e2, isB64Char_pad, List.filter_nil, if_true, if_false,
      Bool.false_eq_true]
    unfold b64DecodeGroups
    rw [v1, v2]
    simp only [List.cons.injEq, and_true]
    omega
  | [b1, b2] => by
    intro h
    have hb1 : b1 < 256 := h b1 (by simp)
    have hb2 : b2 < 256 := h b2 (by simp)
    have e1 := b64Char_mem_alphabet (b1 / 4) (by omega)
    have e2 := b64Char_mem_alphabet (b1 % 4 * 16 + b2 / 16) (by omega)
    have e3 := b64Char_mem_alphabet (b2 % 16 * 4) (by omega)
    have v1 := b64Val_b64Char (b1 / 4) (by omega)
    have v2 := b64Val_b64Char (b1 % 4 * 16 + b2 / 16) (by omega)
    have v3 := b64Val_b64Char (b2 % 16 * 4) (by omega)
    unfold b64Decode b64Encode
    simp only [List.filter_cons, e1, e2, e3, isB64Char_pad, List.filter_nil, if_true, if_false,
      Bool.false_eq_true]
    unfold b64DecodeGroups
    rw [v1, v2, v3]
    simp only [List.cons.injEq, and_true]
    refine ⟨by omega, by omega⟩
  | b1 :: b2 :: b3 :: rest => by
    intro h
    have hb1 : b1 < 256 := h b1 (by simp)
    have hb2 : b2 < 256 := h b2 (by simp)
    have hb3 : b3 < 256 := h b3 (by simp)
    have ih := b64_roundtrip rest (fun b hb => h b (by simp [hb]))
    have e1 := b64Char_mem_alphabet (b1 / 4) (by omega)
    have e2 := b64Char_mem_alphabet (b1 % 4 * 16 + b2 / 16) (by omega)
    have e3 := b64Char_mem_alphabet (b2 % 16 * 4 + b3 / 64) (by omega)
    have e4 := b64Char_mem_alphabet (b3 % 64) (by omega)
    have v1 := b64Val_b64Char (b1 / 4) (by omega)
    have v2 := b64Val_b64Char (b1 % 4 * 16 + b2 / 16) (by omega)
    have v3 := b64Val_b64Char (b2 % 16 * 4 + b3 / 64) (by omega)
    have v4 := b64Val_b64Char (b3 % 64) (by omega)
    unfold b64Decode at ih ⊢
    rw [show b64Encode (b1 :: b2 :: b3 :: rest) =
      b64Char (b1 / 4) :: b64Char (b1 % 4 * 16 + b2 / 16) ::
        b64Char (b2 % 16 * 4 + b3 / 64) :: b64Char (b3 % 64) :: b64Encode rest from rfl]
    simp only [List.filter_cons, e1, e2, e3, e4, if_true]
    rw [b64DecodeGroups]
    rw [v1, v2, v3, v4]
    simp only [List.cons.injEq]
    exact ⟨by omega, by omega, by omega, ih⟩

theorem utf8DecodeStrict_encChar (c : Char) (l : List Nat) :
    utf8DecodeStrict (utf8EncodeCharNat c.toNat ++ l) =
      (utf8DecodeStrict l).map (c :: ·) := by
  have hvalid : c.toNat < 0xd800 ∨ (0xdfff < c.toNat ∧ c.toNat < 0x110000) := c.valid
  have hofn : Char.ofNat c.toNat = c := charOfNat_toNat c
  set n := c.toNat with hn
  rcases Nat.lt_or_ge n 0x80 with h1 | h1
  · rw [utf8EncodeCharNat, if_pos h1]
    simp only [List.cons_append, List.nil_append]
    rw [utf8DecodeStrict, if_pos h1, hofn]
  · rcases Nat.lt_or_ge n 0x800 with h2 | h2
    · rw [utf8EncodeCharNat, if_neg (by omega), if_pos h2]
      simp only [List.cons_append, List.nil_append]
      rw [utf8DecodeStrict, if_neg (by omega), if_pos (by omega)]
      rw [utf8Cont1, if_pos (by omega)]
      rw [show (0xC0 + n / 64 - 0xC0) * 64 + (0x80 + n % 64 - 0x80) = n from by omega, hofn]
    · rcases Nat.lt_or_ge n 0x10000 with h3 | h3
      · rw [utf8EncodeCharNat, if_neg (by omega), if_neg (by omega), if_pos h3]
        simp only [List.cons_append, List.nil_append]
        rw [utf8DecodeStrict, if_neg (by omega), if_neg (by omega), if_pos (by omega)]
        rw [utf8Cont2, if_pos (by omega)]
        rw [show (0xE0 + n / 4096 - 0xE0) * 4096 + (0x80 + n / 64 % 64 - 0x80) * 64 +
          (0x80 + n % 64 - 0x80) = n from by omega, hofn]
      · have h4 : n < 0x110000 := by omega
        rw [utf8EncodeCharNat, if_neg (by omega), if_neg (by omega), if_neg (by omega)]
        simp only [List.cons_append, List.nil_append]
        rw [utf8DecodeStrict, if_neg (by omega), if_neg (by omega), if_neg (by omega),
          if_pos (by omega)]
        rw [utf8Cont3, if_pos (by omega)]
        rw [show (0xF0 + n / 262144 - 0xF0) * 262144 + (0x80 + n / 4096 % 64 - 0x80) * 4096 +
          (0x80 + n / 64 % 64 - 0x80) * 64 + (0x80 + n % 64 - 0x80) = n from by omega, hofn]

theorem utf8_roundtrip : ∀ cs : List Char, utf8DecodeStrict (utf8Encode cs) = some cs
  | [] => rfl
  | c :: cs => by
    rw [utf8Encode, utf8DecodeStrict_encChar, utf8_roundtrip cs]
    rfl

/-- Standard decoding of one RFC 2047 `=?UTF-8?B?...?=` encoded word:
strip the frame, decode base64, decode UTF-8 strictly. -/
def decodeEncodedWord (s : String) : Option String :=
  let l := s.data
  if startsWithChars "=?UTF-8?B?".data l && startsWithChars "=?".data l.reverse then
    (utf8DecodeStrict (b64Decode ((l.drop 10).take ((l.drop 10).length - 2)))).map String.mk
  else none

theorem startsWithChars_append (p l : List Char) : startsWithChars p (p ++ l) = true := by
  induction p with
  | nil => rfl
  | cons c cs ih => simp [startsWithChars, ih]

/-- Claim C3. A subject of printable ASCII (0x20–0x7E only) passes through
the Subject header unmodified; any other subject becomes exactly one
encoded word `=?UTF-8?B?<base64 of its UTF-8 bytes>?=`, and standard
encoded-word decoding of the emitted header recovers the subject. -/
theorem c3_subject_encoding (s : String) :
    (s.data.all isPrintableAscii = true → encodeSubject s = s) ∧
    (s.data.all isPrintableAscii = false →
      encodeSubject s = "=?UTF-8?B?" ++ String.mk (b64Encode (utf8Bytes s)) ++ "?=" ∧
      decodeEncodedWord (encodeSubject s) = some s) := by
  constructor
  · intro h
    rw [encodeSubject, if_pos h]
  · intro h
    have henc : encodeSubject s = "=?UTF-8?B?" ++ String.mk (b64Encode (utf8Bytes s)) ++ "?=" := by
      rw [encodeSubject, if_neg (by simp [h])]
    refine ⟨henc, ?_⟩
    rw [henc]
    have hdata : ("=?UTF-8?B?" ++ String.mk (b64Encode (utf8Bytes s)) ++ "?=").data =
        "=?UTF-8?B?".data ++ (b64Encode (utf8Bytes s) ++ "?=".data) := by
      simp [String.data_append]
    unfold decodeEncodedWord
    simp only [hdata]
    have hrev : ("=?UTF-8?B?".data ++ (b64Encode (utf8Bytes s) ++ "?=".data)).reverse =
        "=?".data ++ ((b64Encode (utf8Bytes s)).reverse ++ "=?UTF-8?B?".data.reverse) := by
      simp [List.reverse_append, show "?=".data.reverse = "=?".data from by decide]
    rw [hrev, startsWithChars_append "=?UTF-8?B?".data, startsWithChars_append "=?".data]
    simp only [Bool.and_self, if_true]
    have hdrop : ("=?UTF-8?B?".data ++ (b64Encode (utf8Bytes s) ++ "?=".data)).drop 10 =
        b64Encode (utf8Bytes s) ++ "?=".data := by
      have h10 : ("=?UTF-8?B?".data).length = 10 := rfl
      rw [← h10, List.drop_left]
    rw [hdrop]
    have hlen : (b64Encode (utf8Bytes s) ++ "?=".data).length - 2 =
        (b64Encode (utf8Bytes s)).length := by
      simp
    rw [hlen, List.take_left]
    rw [b64_roundtrip (utf8Bytes s) (fun b hb => utf8Encode_lt s.data b hb)]
    unfold utf8Bytes
    rw [utf8_roundtrip s.data]
    rfl

/-- Witness for C3, at a printable-ASCII subject and a non-ASCII one. -/
theorem c3_subject_encoding_witness :
    ("abc".data.all isPrintableAscii = true ∧ encodeSubject "abc" = "abc") ∧
    ("héllo".data.all isPrintableAscii = false ∧
      decodeEncodedWord (encodeSubject "héllo") = some "héllo") :=
  ⟨⟨by decide, (c3_subject_encoding "abc").1 (by decide)⟩,
    ⟨by decide, ((c3_subject_encoding "héllo").2 (by decide)).2⟩⟩

end GmailMcp
